import Mathlib

/-!
Verification of the fuzzy city-to-region merge pipeline
(`DataLoader.merge_with_bundesland` in
`src/Refactoring2/src/data_processing/data_loader.py`).

The pandas data frames are embedded shallowly: a data frame is a list of
column names together with rows, each row an association list from column
name to an optional string cell (`none` models a missing value / NaN).
The merge body, which in the source sits inside a `try`, is modelled by
`innerMerge`, which returns `Except MergeError DataFrame`; the surrounding
`try/except Exception` that returns the original input on any error is
modelled by `merge_with_bundesland`.
-/

namespace CampPark

/-- Exceptions that the merge body can raise: a `KeyError` when a required
column is absent from a frame, and a `ZeroDivisionError` when the fuzzy
similarity score divides by `max(0, 0)` (both compared character sets empty). -/
inductive MergeError where
  | keyError (col : String)
  | zeroDivisionError
deriving DecidableEq, Repr

/-- A data-frame row: an association list from column name to cell.
A cell of `none` models pandas NaN / a missing value. -/
abbrev Row : Type := List (String × Option String)

/-- A pandas data frame: the list of column names plus the rows. -/
structure DataFrame where
  cols : List String
  rows : List Row
deriving DecidableEq, Repr

/-- `df.empty` in pandas: no rows or no columns. -/
def DataFrame.isEmpty (df : DataFrame) : Bool :=
  df.rows.isEmpty || df.cols.isEmpty

/-- Read the cell of column `c` from a row (first binding wins, as rows hold
each column once). -/
def getCell : Row → String → Option String
  | [], _ => none
  | p :: rest, c => if p.1 = c then p.2 else getCell rest c

/-- Does the row carry column `c`? -/
def hasKey (r : Row) (c : String) : Bool :=
  r.any (fun p => p.1 == c)

/-- Column assignment on one row: overwrite the existing binding in place,
or append a new column at the end — mirroring `df[c] = ...` in pandas. -/
def setCell (r : Row) (c : String) (v : Option String) : Row :=
  if hasKey r c then r.map (fun p => if p.1 = c then (c, v) else p)
  else r ++ [(c, v)]

/-- `df[c] = vals` column assignment across the frame. -/
def setColumn (df : DataFrame) (c : String) (vals : List (Option String)) : DataFrame :=
  { cols := if c ∈ df.cols then df.cols else df.cols ++ [c]
    rows := (df.rows.zip vals).map (fun rv => setCell rv.1 c rv.2) }

/-- `df[c]` column read: raises `KeyError` when the column is absent,
matching `df_enhanced[df_city_column]` / `cities_clean['Stadt']`. -/
def getColumn (df : DataFrame) (c : String) : Except MergeError (List (Option String)) :=
  if c ∈ df.cols then .ok (df.rows.map (fun r => getCell r c))
  else .error (.keyError c)

/-- `df.drop(columns=[c])`. -/
def dropColumn (df : DataFrame) (c : String) : DataFrame :=
  { cols := df.cols.erase c
    rows := df.rows.map (fun r => r.filter (fun p => !(p.1 == c))) }

/-- `s.strip().lower()` — the normalization applied to every city name:
whitespace stripped from both ends, then each character lower-cased
(ASCII case folding; other characters pass through unchanged).  Written
over the character list so that it evaluates on concrete inputs. -/
def normalize (s : String) : String :=
  ⟨(((s.data.dropWhile Char.isWhitespace).reverse.dropWhile
      Char.isWhitespace).reverse).map Char.toLower⟩

/-- `set(s)` — the set of constituent characters of a normalized name. -/
def charSet (s : String) : Finset Char :=
  s.data.toFinset

/-- `len(set(a) & set(b)) / max(len(set(a)), len(set(b)))` — the similarity
score of the source's fuzzy pass (line 233 of the loader). -/
def score (a b : String) : ℚ :=
  ((charSet a ∩ charSet b).card : ℚ) / ((max (charSet a).card (charSet b).card : ℕ) : ℚ)

/-- Lookup in the dict built by
`dict(zip(cities_clean['Stadt_clean'], cities_clean['Bundesland']))`:
later entries overwrite earlier ones (last-write-wins), so the tail of the
list is consulted first.  Returns `some v` when the key is present with
stored value `v` (itself an `Option String`, since a Bundesland cell may be
NaN), and `none` when the key is absent. -/
def dictLookup : List (Option String × Option String) → Option String → Option (Option String)
  | [], _ => none
  | p :: rest, k =>
    match dictLookup rest k with
    | some v => some v
    | none => if p.1 = k then some p.2 else none

/-- Dict access for a string key: the stored value when the key is present,
NaN when absent.  Used for `city_bundesland_mapping[best_match]` in the
fuzzy pass, where the key is always present. -/
def mapGet (m : List (Option String × Option String)) (k : String) : Option String :=
  (dictLookup m (some k)).getD none

/-- The value `Series.map` (with its default `na_action=None`) yields for a
cleaned city key, NaN included: the stored dict value when the key is
present — a NaN city matches a NaN dict key, since pandas' hashtable treats
NaN as equal to NaN for lookups (pandas GH 17648) — and NaN when the key is
absent. -/
def mapGetKey (m : List (Option String × Option String)) (k : Option String) : Option String :=
  (dictLookup m k).getD none

/-- Helper for `Series.unique()`: keep the first occurrence of each value,
in input order. -/
def dedupFirstAux : List (Option String) → List (Option String) → List (Option String)
  | _, [] => []
  | seen, x :: xs =>
    if x ∈ seen then dedupFirstAux seen xs
    else x :: dedupFirstAux (x :: seen) xs

/-- `cities_clean['Stadt_clean'].unique()` — distinct values in order of
first occurrence (NaN kept, skipped later by the `pd.notna` guard). -/
def dedupFirst (l : List (Option String)) : List (Option String) :=
  dedupFirstAux [] l

/-- The inner loop of the fuzzy pass: scan the available (unique, ordered)
reference names, skipping NaN entries, tracking `best_score`/`best_match`
under the source's acceptance test `score > best_score and score > 0.5`.
Raises `ZeroDivisionError` when both character sets are empty. -/
def bestFuzzy (city : String) : List (Option String) → ℚ → Option String →
    Except MergeError (ℚ × Option String)
  | [], best, bm => .ok (best, bm)
  | none :: rest, best, bm => bestFuzzy city rest best bm
  | some ac :: rest, best, bm =>
    if 0 < max (charSet city).card (charSet ac).card then
      if best < score city ac ∧ (1 : ℚ) / 2 < score city ac then
        bestFuzzy city rest (score city ac) (some ac)
      else bestFuzzy city rest best bm
    else .error .zeroDivisionError

/-- Resolution of one facility row, given its cleaned city name `cc` and the
exact-pass value `b0` (`none` exactly when the row is in `unmatched_mask`).
A row with a NaN cleaned city is skipped by the `pd.notna` guard without
scoring; otherwise the fuzzy scan runs and, on a best match, the dict value
for that match is assigned. -/
def resolveRow (mapping : List (Option String × Option String))
    (avail : List (Option String)) (cc b0 : Option String) :
    Except MergeError (Option String) :=
  match b0 with
  | some v => .ok (some v)
  | none =>
    match cc with
    | none => .ok none
    | some k =>
      match bestFuzzy k avail 0 none with
      | .error e => .error e
      | .ok (_, none) => .ok none
      | .ok (_, some m) => .ok (mapGet mapping m)

/-- The fuzzy pass over all facility rows (in row order); an exception in
any row aborts the whole merge body, as in the source loop. -/
def resolveAll (mapping : List (Option String × Option String))
    (avail : List (Option String)) :
    List (Option String × Option String) → Except MergeError (List (Option String))
  | [] => .ok []
  | (cc, b0) :: rest =>
    match resolveRow mapping avail cc b0 with
    | .error e => .error e
    | .ok v =>
      match resolveAll mapping avail rest with
      | .error e => .error e
      | .ok vs => .ok (v :: vs)

/-- The body of `merge_with_bundesland` (the part inside the `try`):
empty-input early return, normalization of both frames, the
`Stadt_clean -> Bundesland` dict, the exact pass via `Series.map` (which,
with the default `na_action`, also looks NaN city values up in the dict, so
a NaN city matches a reference row whose `Stadt` is NaN), the fuzzy
fallback pass, and the drop of the temporary `_clean` column. -/
def innerMerge (df cities : DataFrame) (c : String) : Except MergeError DataFrame :=
  if df.isEmpty || cities.isEmpty then .ok df
  else
    match getColumn df c with
    | .error e => .error e
    | .ok cityVals =>
      let cleanVals := cityVals.map (Option.map normalize)
      let df1 := setColumn df (c ++ "_clean") cleanVals
      match getColumn cities "Stadt" with
      | .error e => .error e
      | .ok stadtVals =>
        let stadtClean := stadtVals.map (Option.map normalize)
        match getColumn cities "Bundesland" with
        | .error e => .error e
        | .ok bdlVals =>
          let mapping := stadtClean.zip bdlVals
          let exactVals := cleanVals.map (fun oc => mapGetKey mapping oc)
          let avail := dedupFirst stadtClean
          match resolveAll mapping avail (cleanVals.zip exactVals) with
          | .error e => .error e
          | .ok finalVals =>
            let df2 := setColumn df1 "bundesland" finalVals
            .ok (dropColumn df2 (c ++ "_clean"))

/-- The public `merge_with_bundesland`: the catch-all
`except Exception: return df` wrapped around the body. -/
def merge_with_bundesland (df cities : DataFrame) (c : String) : DataFrame :=
  match innerMerge df cities c with
  | .ok r => r
  | .error _ => df

/-- The cleaned reference-name column (`Stadt_clean`), written directly over
the rows of the cities frame. -/
def stadtCleanOf (cities : DataFrame) : List (Option String) :=
  cities.rows.map (fun r => Option.map normalize (getCell r "Stadt"))

/-- The `Stadt_clean -> Bundesland` association, written directly over the
rows of the cities frame. -/
def mappingOf (cities : DataFrame) : List (Option String × Option String) :=
  cities.rows.map (fun r => (Option.map normalize (getCell r "Stadt"), getCell r "Bundesland"))

/-- The cleaned facility-city column, written directly over the rows. -/
def cleanValsOf (df : DataFrame) (c : String) : List (Option String) :=
  df.rows.map (fun r => Option.map normalize (getCell r c))

/-- One entry of the `Stadt_clean -> Bundesland` dict, from one reference row. -/
def mappingRow (r : Row) : Option String × Option String :=
  (Option.map normalize (getCell r "Stadt"), getCell r "Bundesland")

lemma mappingOf_eq_map (cities : DataFrame) :
    mappingOf cities = cities.rows.map mappingRow := rfl

lemma mem_of_getElem? {α : Type} {l : List α} {i : ℕ} {x : α}
    (h : l[i]? = some x) : x ∈ l := by
  rw [List.getElem?_eq_some] at h
  obtain ⟨hi, rfl⟩ := h
  exact List.getElem_mem ..

lemma getElem?_zip_of {α β : Type} {l1 : List α} {l2 : List β} {i : ℕ} {a : α} {b : β}
    (h1 : l1[i]? = some a) (h2 : l2[i]? = some b) :
    (l1.zip l2)[i]? = some (a, b) := by
  induction l1 generalizing l2 i with
  | nil => simp at h1
  | cons x xs ih =>
    cases l2 with
    | nil => simp at h2
    | cons y ys =>
      cases i with
      | zero =>
        simp only [List.getElem?_cons_zero, Option.some.injEq] at h1 h2
        simp [List.zip_cons_cons, h1, h2]
      | succ n =>
        simp only [List.getElem?_cons_succ] at h1 h2
        simpa [List.zip_cons_cons] using ih h1 h2

lemma resolveAll_length {mapping : List (Option String × Option String)} {avail : List (Option String)}
    {l : List (Option String × Option String)} {vs : List (Option String)}
    (h : resolveAll mapping avail l = .ok vs) : vs.length = l.length := by
  induction l generalizing vs with
  | nil =>
    simp only [resolveAll, Except.ok.injEq] at h
    subst h; rfl
  | cons p rest ih =>
    obtain ⟨cc, b0⟩ := p
    rw [resolveAll] at h
    cases hr : resolveRow mapping avail cc b0 with
    | error e => rw [hr] at h; exact absurd h (by simp)
    | ok v =>
      rw [hr] at h
      cases hs : resolveAll mapping avail rest with
      | error e => rw [hs] at h; exact absurd h (by simp)
      | ok vs' =>
        rw [hs] at h
        simp only [Except.ok.injEq] at h
        subst h
        simp [ih hs]

lemma resolveAll_get {mapping : List (Option String × Option String)} {avail : List (Option String)}
    {l : List (Option String × Option String)} {vs : List (Option String)}
    {i : ℕ} {p : Option String × Option String}
    (h : resolveAll mapping avail l = .ok vs) (hp : l[i]? = some p) :
    ∃ v, vs[i]? = some v ∧ resolveRow mapping avail p.1 p.2 = .ok v := by
  induction l generalizing vs i with
  | nil => simp at hp
  | cons q rest ih =>
    obtain ⟨cc, b0⟩ := q
    rw [resolveAll] at h
    cases hr : resolveRow mapping avail cc b0 with
    | error e => rw [hr] at h; exact absurd h (by simp)
    | ok v =>
      rw [hr] at h
      cases hs : resolveAll mapping avail rest with
      | error e => rw [hs] at h; exact absurd h (by simp)
      | ok vs' =>
        rw [hs] at h
        simp only [Except.ok.injEq] at h
        subst h
        cases i with
        | zero =>
          simp only [List.getElem?_cons_zero, Option.some.injEq] at hp
          subst hp
          exact ⟨v, by simp, hr⟩
        | succ n =>
          simp only [List.getElem?_cons_succ] at hp ⊢
          exact ih hs hp

lemma getColumn_ok {df : DataFrame} {c : String} {vals : List (Option String)}
    (h : getColumn df c = .ok vals) :
    c ∈ df.cols ∧ vals = df.rows.map (fun r => getCell r c) := by
  unfold getColumn at h
  split at h
  · simp only [Except.ok.injEq] at h
    exact ⟨by assumption, h.symm⟩
  · exact absurd h (by simp)

lemma innerMerge_ok_destruct {df cities : DataFrame} {c : String} {out : DataFrame}
    (hdf : df.isEmpty = false) (hct : cities.isEmpty = false)
    (hok : innerMerge df cities c = .ok out) :
    c ∈ df.cols ∧ "Stadt" ∈ cities.cols ∧ "Bundesland" ∈ cities.cols ∧
    ∃ finalVals,
      resolveAll (mappingOf cities) (dedupFirst (stadtCleanOf cities))
        ((cleanValsOf df c).zip ((cleanValsOf df c).map
          (fun oc => mapGetKey (mappingOf cities) oc))) = .ok finalVals ∧
      out = dropColumn (setColumn (setColumn df (c ++ "_clean") (cleanValsOf df c))
        "bundesland" finalVals) (c ++ "_clean") := by
  rw [innerMerge, hdf, hct] at hok
  simp only [Bool.or_self, Bool.false_eq_true, if_false] at hok
  split at hok
  next e h1 => exact absurd hok (by simp)
  next cityVals h1 =>
  obtain ⟨hc, hv⟩ := getColumn_ok h1
  split at hok
  next e h2 => exact absurd hok (by simp)
  next stadtVals h2 =>
  obtain ⟨hS, hvS⟩ := getColumn_ok h2
  split at hok
  next e h3 => exact absurd hok (by simp)
  next bdlVals h3 =>
  obtain ⟨hBc, hvB⟩ := getColumn_ok h3
  split at hok
  next e h4 => exact absurd hok (by simp)
  next finalVals h4 =>
  simp only [Except.ok.injEq] at hok
  have e1 : cityVals.map (Option.map normalize) = cleanValsOf df c := by
    rw [hv, cleanValsOf, List.map_map]; rfl
  have e2 : stadtVals.map (Option.map normalize) = stadtCleanOf cities := by
    rw [hvS, stadtCleanOf, List.map_map]; rfl
  have e3 : (stadtVals.map (Option.map normalize)).zip bdlVals = mappingOf cities := by
    rw [e2, hvB, stadtCleanOf, List.zip_map']; rfl
  rw [e3, e2, e1] at h4
  rw [e1] at hok
  exact ⟨hc, hS, hBc, finalVals, h4, hok.symm⟩

lemma hasKey_false_of_not_mem {r : Row} {c : String}
    (h : c ∉ r.map Prod.fst) : hasKey r c = false := by
  rw [hasKey, List.any_eq_false]
  intro p hp hpc
  exact h (List.mem_map.mpr ⟨p, hp, by simpa using hpc⟩)

lemma setCell_append_of_not_has {r : Row} {c : String} {v : Option String}
    (h : hasKey r c = false) : setCell r c v = r ++ [(c, v)] := by
  rw [setCell, h]
  simp

lemma getCell_overwrite_self {r : Row} {c : String} {v : Option String}
    (h : hasKey r c = true) :
    getCell (r.map (fun p => if p.1 = c then (c, v) else p)) c = v := by
  induction r with
  | nil => simp [hasKey] at h
  | cons p rest ih =>
    by_cases hp : p.1 = c
    · simp [getCell, hp]
    · rw [hasKey, List.any_cons] at h
      simp only [Bool.or_eq_true] at h
      rcases h with h | h
      · exact absurd (by simpa using h) hp
      · simp only [List.map_cons, if_neg hp, getCell, if_neg hp]
        exact ih (by rw [hasKey]; exact h)

lemma getCell_append_self {r : Row} {c : String} {v : Option String}
    (h : hasKey r c = false) :
    getCell (r ++ [(c, v)]) c = v := by
  induction r with
  | nil => simp [getCell]
  | cons p rest ih =>
    rw [hasKey, List.any_cons] at h
    simp only [Bool.or_eq_false_iff] at h
    have hp : p.1 ≠ c := by simpa using h.1
    simp only [List.cons_append, getCell, if_neg hp]
    exact ih (by rw [hasKey]; exact h.2)

lemma getCell_setCell_self (r : Row) (c : String) (v : Option String) :
    getCell (setCell r c v) c = v := by
  rw [setCell]
  cases h : hasKey r c with
  | false =>
    simp only [Bool.false_eq_true, if_false]
    exact getCell_append_self h
  | true =>
    simp only [if_true]
    exact getCell_overwrite_self h

lemma getCell_overwrite_ne {r : Row} {c c' : String} {v : Option String}
    (h : c' ≠ c) :
    getCell (r.map (fun p => if p.1 = c then (c, v) else p)) c' = getCell r c' := by
  have hcc : ¬ (c = c') := fun hh => h hh.symm
  induction r with
  | nil => simp [getCell]
  | cons p rest ih =>
    by_cases hp : p.1 = c
    · have hp' : p.1 ≠ c' := by rw [hp]; exact fun hh => h hh.symm
      simp [getCell, if_pos hp, hcc, hp', ih, h]
    · by_cases hp' : p.1 = c'
      · simp [getCell, if_neg hp, hp', h]
      · simp [getCell, if_neg hp, hp', ih, h]

lemma getCell_append_ne {r : Row} {c c' : String} {v : Option String}
    (h : c' ≠ c) :
    getCell (r ++ [(c, v)]) c' = getCell r c' := by
  have hcc : ¬ (c = c') := fun hh => h hh.symm
  induction r with
  | nil => simp [getCell, hcc]
  | cons p rest ih =>
    by_cases hp : p.1 = c'
    · simp [getCell, hp]
    · simp only [List.cons_append, getCell, if_neg hp]
      exact ih

lemma getCell_setCell_ne (r : Row) (c c' : String) (v : Option String)
    (h : c' ≠ c) : getCell (setCell r c v) c' = getCell r c' := by
  rw [setCell]
  cases hk : hasKey r c with
  | false =>
    simp only [Bool.false_eq_true, if_false]
    exact getCell_append_ne h
  | true =>
    simp only [if_true]
    exact getCell_overwrite_ne h

lemma getCell_filterOut {r : Row} {c col : String} (h : col ≠ c) :
    getCell (r.filter (fun p => !(p.1 == c))) col = getCell r col := by
  induction r with
  | nil => simp [getCell]
  | cons p rest ih =>
    by_cases hp : p.1 = c
    · have hcond : (!(p.1 == c)) = false := by simp [hp]
      rw [List.filter_cons, hcond]
      simp only [Bool.false_eq_true, if_false]
      have hp' : p.1 ≠ col := by rw [hp]; exact fun hh => h hh.symm
      rw [getCell, if_neg hp']
      exact ih
    · have hcond : (!(p.1 == c)) = true := by simp [hp]
      rw [List.filter_cons, hcond]
      simp only [if_true]
      rw [getCell, getCell]
      by_cases hp' : p.1 = col
      · simp [hp']
      · rw [if_neg hp', if_neg hp']
        exact ih

lemma append_clean_ne (c : String) : c ++ "_clean" ≠ "bundesland" := by
  intro hh
  have hdata : c.data ++ ("_clean" : String).data = ("bundesland" : String).data := by
    rw [← String.data_append, hh]
  have hlast := congrArg List.getLast? hdata
  rw [List.getLast?_append] at hlast
  exact absurd (show (some 'n' : Option Char) = some 'd' from hlast) (by decide)

lemma setColumn_rows_get {df : DataFrame} {c : String} {vals : List (Option String)}
    {i : ℕ} {row : Row} {v : Option String}
    (h1 : df.rows[i]? = some row) (h2 : vals[i]? = some v) :
    (setColumn df c vals).rows[i]? = some (setCell row c v) := by
  simp [setColumn, List.getElem?_map, getElem?_zip_of h1 h2]

lemma dropColumn_rows_get {df : DataFrame} {c : String} {i : ℕ} {row : Row}
    (h : df.rows[i]? = some row) :
    (dropColumn df c).rows[i]? = some (row.filter (fun p => !(p.1 == c))) := by
  simp [dropColumn, List.getElem?_map, h]

/-- Tracing one facility row through a successful merge: the `bundesland`
cell of the output row is exactly what `resolveRow` computes from the
cleaned city value and the exact-pass dict lookup. -/
lemma merge_row_value {df cities : DataFrame} {c : String} {out : DataFrame}
    {i : ℕ} {row : Row}
    (hdf : df.isEmpty = false) (hct : cities.isEmpty = false)
    (hok : innerMerge df cities c = .ok out)
    (hrow : df.rows[i]? = some row) :
    ∃ orow v, out.rows[i]? = some orow ∧ getCell orow "bundesland" = v ∧
      resolveRow (mappingOf cities) (dedupFirst (stadtCleanOf cities))
        (Option.map normalize (getCell row c))
        (mapGetKey (mappingOf cities)
          (Option.map normalize (getCell row c))) = .ok v := by
  obtain ⟨hc, hS, hB, finalVals, hres, hout⟩ := innerMerge_ok_destruct hdf hct hok
  have hclean : (cleanValsOf df c)[i]? = some (Option.map normalize (getCell row c)) := by
    simp [cleanValsOf, List.getElem?_map, hrow]
  have hexact : ((cleanValsOf df c).map
      (fun oc => mapGetKey (mappingOf cities) oc))[i]?
      = some (mapGetKey (mappingOf cities)
        (Option.map normalize (getCell row c))) := by
    simp [List.getElem?_map, hclean]
  obtain ⟨v, hv, hrr⟩ := resolveAll_get hres (getElem?_zip_of hclean hexact)
  have h1 := setColumn_rows_get (c := c ++ "_clean") hrow hclean
  have h2 := setColumn_rows_get (c := "bundesland") h1 hv
  have h3 := dropColumn_rows_get (c := c ++ "_clean") h2
  rw [← hout] at h3
  refine ⟨_, v, h3, ?_, hrr⟩
  rw [getCell_filterOut (Ne.symm (append_clean_ne c)), getCell_setCell_self]

lemma dictLookup_eq_none {m : List (Option String × Option String)} {k : Option String}
    (h : ∀ p ∈ m, p.1 ≠ k) : dictLookup m k = none := by
  induction m with
  | nil => rfl
  | cons p rest ih =>
    rw [dictLookup, ih (fun q hq => h q (List.mem_cons_of_mem _ hq))]
    simp [h p (List.mem_cons_self _ _)]

lemma dictLookup_cons_of_some {p : Option String × Option String}
    {rest : List (Option String × Option String)} {k : Option String} {v : Option String}
    (h : dictLookup rest k = some v) : dictLookup (p :: rest) k = some v := by
  rw [dictLookup, h]

/-- The dict lookup of a key that some reference row carries returns the
Bundesland of one of the reference rows carrying that key. -/
lemma dictLookup_of_exists {rows : List Row} {k : String}
    (hex : ∃ r ∈ rows, ∃ t, getCell r "Stadt" = some t ∧ normalize t = k) :
    ∃ r ∈ rows, ∃ t, getCell r "Stadt" = some t ∧ normalize t = k ∧
      dictLookup (rows.map mappingRow) (some k) = some (getCell r "Bundesland") := by
  induction rows with
  | nil => simp at hex
  | cons r0 rest ih =>
    by_cases hrest : ∃ r ∈ rest, ∃ t, getCell r "Stadt" = some t ∧ normalize t = k
    · obtain ⟨r, hr, t, ht, hk, hd⟩ := ih hrest
      exact ⟨r, List.mem_cons_of_mem _ hr, t, ht, hk, by
        rw [List.map_cons]; exact dictLookup_cons_of_some hd⟩
    · obtain ⟨r, hr, t, ht, hk⟩ := hex
      rcases List.mem_cons.mp hr with rfl | hr'
      · have hnone : dictLookup (rest.map mappingRow) (some k) = none := by
          apply dictLookup_eq_none
          intro p hp hpk
          obtain ⟨q, hq, rfl⟩ := List.mem_map.mp hp
          simp only [mappingRow] at hpk
          cases hsq : getCell q "Stadt" with
          | none => rw [hsq] at hpk; simp at hpk
          | some t' =>
            rw [hsq] at hpk
            simp only [Option.map_some', Option.some.injEq] at hpk
            exact hrest ⟨q, hq, t', hsq, hpk⟩
        refine ⟨r, List.mem_cons_self _ _, t, ht, hk, ?_⟩
        rw [List.map_cons, dictLookup, hnone]
        simp [mappingRow, ht, hk]
      · exact absurd ⟨r, hr', t, ht, hk⟩ hrest

/-- Last-write-wins: when `r2` is the last reference row whose city
normalizes to `k`, the dict maps `k` to the Bundesland of `r2`. -/
lemma dictLookup_last_write {l1 l2 : List Row} {r2 : Row} {k : String} {t2 : String}
    (ht2 : getCell r2 "Stadt" = some t2) (hk : normalize t2 = k)
    (hlast : ∀ r ∈ l2, ∀ t, getCell r "Stadt" = some t → normalize t ≠ k) :
    dictLookup ((l1 ++ r2 :: l2).map mappingRow) (some k)
      = some (getCell r2 "Bundesland") := by
  induction l1 with
  | nil =>
    have hnone : dictLookup (l2.map mappingRow) (some k) = none := by
      apply dictLookup_eq_none
      intro p hp hpk
      obtain ⟨q, hq, rfl⟩ := List.mem_map.mp hp
      simp only [mappingRow] at hpk
      cases hsq : getCell q "Stadt" with
      | none => rw [hsq] at hpk; simp at hpk
      | some t' =>
        rw [hsq] at hpk
        simp only [Option.map_some', Option.some.injEq] at hpk
        exact hlast q hq t' hsq hpk
    rw [List.nil_append, List.map_cons, dictLookup, hnone]
    simp [mappingRow, ht2, hk]
  | cons r0 l1' ih =>
    rw [List.cons_append, List.map_cons]
    exact dictLookup_cons_of_some ih

lemma mem_dedupFirstAux {x : Option String} :
    ∀ {seen l : List (Option String)}, x ∈ dedupFirstAux seen l → x ∈ l := by
  intro seen l
  induction l generalizing seen with
  | nil => intro h; simp [dedupFirstAux] at h
  | cons y ys ih =>
    intro h
    rw [dedupFirstAux] at h
    by_cases hy : y ∈ seen
    · rw [if_pos hy] at h
      exact List.mem_cons_of_mem _ (ih h)
    · rw [if_neg hy] at h
      rcases List.mem_cons.mp h with rfl | h'
      · exact List.mem_cons_self _ _
      · exact List.mem_cons_of_mem _ (ih h')

lemma mem_dedupFirst {x : Option String} {l : List (Option String)}
    (h : x ∈ dedupFirst l) : x ∈ l :=
  mem_dedupFirstAux h

lemma score_empty_left (ac : String) : score "" ac = 0 := by
  rw [score]
  rw [show charSet "" = ∅ from rfl]
  simp

lemma card_charSet_pos {ac : String} (h : ac ≠ "") : 0 < (charSet ac).card := by
  rw [Finset.card_pos]
  cases hd : ac.data with
  | nil => exact absurd (String.ext (by rw [hd])) h
  | cons ch tl => exact ⟨ch, by simp [charSet, hd]⟩

/-- An empty cleaned city never qualifies in the fuzzy scan: against every
non-empty candidate its score is `0`, which fails the `> 0.5` threshold. -/
lemma bestFuzzy_empty_city {avail : List (Option String)}
    (h : ∀ a, some a ∈ avail → a ≠ "") :
    bestFuzzy "" avail 0 none = .ok (0, none) := by
  induction avail with
  | nil => rfl
  | cons x rest ih =>
    cases x with
    | none =>
      rw [bestFuzzy]
      exact ih (fun a ha => h a (List.mem_cons_of_mem _ ha))
    | some ac =>
      have hac : ac ≠ "" := h ac (List.mem_cons_self _ _)
      have hpos : 0 < max (charSet "").card (charSet ac).card :=
        lt_max_of_lt_right (card_charSet_pos hac)
      rw [bestFuzzy, if_pos hpos, if_neg (by rw [score_empty_left]; simp)]
      exact ih (fun a ha => h a (List.mem_cons_of_mem _ ha))

/-- Invariant of the fuzzy scan: either no update ever fired (the result is
the incoming accumulator, and no scanned candidate both beats it and clears
the threshold), or the result names the first candidate attaining the
maximal qualifying score. -/
lemma bestFuzzy_invariant (city : String) :
    ∀ (avail : List (Option String)) (best : ℚ) (bm : Option String)
      (s : ℚ) (om : Option String),
    bestFuzzy city avail best bm = .ok (s, om) →
    (om = bm ∧ s = best ∧
      ∀ a, some a ∈ avail → (score city a ≤ best ∨ score city a ≤ 1 / 2))
    ∨ (∃ m l1 l2, om = some m ∧ avail = l1 ++ some m :: l2 ∧ s = score city m ∧
        best < s ∧ 1 / 2 < s ∧ (∀ a, some a ∈ l1 → score city a < s) ∧
        (∀ a, some a ∈ l2 → score city a ≤ s)) := by
  intro avail
  induction avail with
  | nil =>
    intro best bm s om h
    rw [bestFuzzy] at h
    simp only [Except.ok.injEq, Prod.mk.injEq] at h
    exact Or.inl ⟨h.2.symm, h.1.symm, by simp⟩
  | cons x rest ih =>
    intro best bm s om h
    cases x with
    | none =>
      rw [bestFuzzy] at h
      rcases ih best bm s om h with ⟨h1, h2, h3⟩ |
        ⟨m, l1, l2, hom, hsplit, hs, hb, hh, hl1, hl2⟩
      · refine Or.inl ⟨h1, h2, ?_⟩
        intro a ha
        rcases List.mem_cons.mp ha with heq | hmem
        · exact absurd heq (by simp)
        · exact h3 a hmem
      · refine Or.inr ⟨m, none :: l1, l2, hom, by rw [hsplit]; rfl, hs, hb, hh, ?_, hl2⟩
        intro a ha
        rcases List.mem_cons.mp ha with heq | hmem
        · exact absurd heq (by simp)
        · exact hl1 a hmem
    | some ac =>
      rw [bestFuzzy] at h
      by_cases hz : 0 < max (charSet city).card (charSet ac).card
      · rw [if_pos hz] at h
        by_cases hacc : best < score city ac ∧ (1 : ℚ) / 2 < score city ac
        · rw [if_pos hacc] at h
          rcases ih (score city ac) (some ac) s om h with ⟨h1, h2, h3⟩ |
            ⟨m, l1, l2, hom, hsplit, hs, hb, hh, hl1, hl2⟩
          · refine Or.inr ⟨ac, [], rest, h1, by simp, h2, by rw [h2]; exact hacc.1,
              by rw [h2]; exact hacc.2, by simp, ?_⟩
            intro a ha
            rcases h3 a ha with hsc | hsc
            · rw [h2]; exact hsc
            · rw [h2]; exact le_trans hsc (le_of_lt hacc.2)
          · refine Or.inr ⟨m, some ac :: l1, l2, hom, by rw [hsplit]; rfl, hs,
              lt_trans hacc.1 hb, hh, ?_, hl2⟩
            intro a ha
            rcases List.mem_cons.mp ha with heq | hmem
            · rw [show a = ac from by simpa using heq]
              exact hb
            · exact hl1 a hmem
        · rw [if_neg hacc] at h
          have hreject : score city ac ≤ best ∨ score city ac ≤ 1 / 2 := by
            by_cases h1 : score city ac ≤ best
            · exact Or.inl h1
            · push_neg at h1
              rcases not_and_or.mp hacc with h2 | h2
              · exact absurd h1 h2
              · exact Or.inr (not_lt.mp h2)
          rcases ih best bm s om h with ⟨h1, h2, h3⟩ |
            ⟨m, l1, l2, hom, hsplit, hs, hb, hh, hl1, hl2⟩
          · refine Or.inl ⟨h1, h2, ?_⟩
            intro a ha
            rcases List.mem_cons.mp ha with heq | hmem
            · rw [show a = ac from by simpa using heq]
              exact hreject
            · exact h3 a hmem
          · refine Or.inr ⟨m, some ac :: l1, l2, hom, by rw [hsplit]; rfl, hs, hb, hh, ?_, hl2⟩
            intro a ha
            rcases List.mem_cons.mp ha with heq | hmem
            · rw [show a = ac from by simpa using heq]
              rcases hreject with hr | hr
              · exact lt_of_le_of_lt hr hb
              · exact lt_of_le_of_lt hr hh
            · exact hl1 a hmem
      · rw [if_neg hz] at h
        exact absurd h (by simp)

lemma resolveRow_exact {mapping : List (Option String × Option String)}
    {avail : List (Option String)} {cc : Option String} {b : String} :
    resolveRow mapping avail cc (some b) = .ok (some b) := rfl

lemma resolveRow_none_city {mapping : List (Option String × Option String)}
    {avail : List (Option String)} :
    resolveRow mapping avail none none = .ok none := rfl

lemma resolveRow_fuzzy_none {mapping : List (Option String × Option String)}
    {avail : List (Option String)} {k : String} {s0 : ℚ}
    (h : bestFuzzy k avail 0 none = .ok (s0, none)) :
    resolveRow mapping avail (some k) none = .ok none := by
  rw [resolveRow, h]

/-! Concrete frames used by the witnesses and counterexamples below. -/

/-- One facility with city `"Berlin "`. -/
def c2Df : DataFrame := ⟨["city"], [[("city", some "Berlin ")]]⟩

/-- Reference table with a high-scoring fuzzy candidate (`berlinx`) and an
exact candidate (`Berlin`). -/
def c2Cities : DataFrame := ⟨["Stadt", "Bundesland"],
  [[("Stadt", some "berlinx"), ("Bundesland", some "X")],
   [("Stadt", some "Berlin"), ("Bundesland", some "BE")]]⟩

/-- The merged output for `c2Df`/`c2Cities`. -/
def c2Out : DataFrame := ⟨["city", "bundesland"],
  [[("city", some "Berlin "), ("bundesland", some "BE")]]⟩

/-- A facility frame that lacks the configured `city` column. -/
def c1Df : DataFrame := ⟨["name"], [[("name", some "P1")]]⟩

/-- A facility frame with no rows. -/
def c5Df : DataFrame := ⟨["city"], []⟩

/-- A facility whose city is whitespace only (normalizes to `""`). -/
def zdDf : DataFrame := ⟨["city"], [[("city", some " ")]]⟩

/-- A reference row whose city is whitespace only and whose region is NaN:
the exact pass maps the facility to NaN and the fuzzy pass divides by zero. -/
def zdCities : DataFrame := ⟨["Stadt", "Bundesland"],
  [[("Stadt", some "  "), ("Bundesland", none)]]⟩

/-- One facility with city `"Berlin"`. -/
def c6Df : DataFrame := ⟨["city"], [[("city", some "Berlin")]]⟩

/-- Two reference rows normalizing to the same key `"berlin"`, with
distinct regions. -/
def c6Cities : DataFrame := ⟨["Stadt", "Bundesland"],
  [[("Stadt", some "Berlin"), ("Bundesland", some "Berlin")],
   [("Stadt", some "berlin "), ("Bundesland", some "BerlinAlt")]]⟩

/-- The merged output for `c6Df`/`c6Cities`: the later duplicate wins. -/
def c6Out : DataFrame := ⟨["city", "bundesland"],
  [[("city", some "Berlin"), ("bundesland", some "BerlinAlt")]]⟩

/-- A single facility with a NaN city value. -/
def c7aDf : DataFrame := ⟨["city"], [[("city", none)]]⟩

/-- The merged output for `c7aDf`/`c2Cities`: the NaN-city row stays
unmatched (every reference name is a string, so the dict has no NaN key). -/
def c7aOut : DataFrame := ⟨["city", "bundesland"],
  [[("city", none), ("bundesland", none)]]⟩

/-- A reference table whose single row has a NaN city name. -/
def c7Cities : DataFrame := ⟨["Stadt", "Bundesland"],
  [[("Stadt", none), ("Bundesland", some "X")]]⟩

/-- Modelled from the spec: the similarity formula stated in words —
intersection cardinality over the maximum of the two set cardinalities. -/
def specScore (A B : Finset Char) : ℚ :=
  ((A ∩ B).card : ℚ) / max (A.card : ℚ) (B.card : ℚ)

/-- Modelled from the spec: standard Jaccard (union-size denominator), which
the spec explicitly says the source does NOT use. -/
def specUnionScore (A B : Finset Char) : ℚ :=
  ((A ∩ B).card : ℚ) / ((A ∪ B).card : ℚ)

/-- Claim C1 (amended): when the configured city-name field is absent from a
non-empty facility frame (with a non-empty reference frame), the merge body
raises a `KeyError` naming the missing field, but the catch-all handler
absorbs it: the public call surfaces no error and returns the original
input unchanged — no `SchemaError` reaches the caller. -/
theorem claimC1 (df cities : DataFrame) (c : String)
    (hdf : df.isEmpty = false) (hct : cities.isEmpty = false) (hc : c ∉ df.cols) :
    innerMerge df cities c = .error (.keyError c) ∧
      merge_with_bundesland df cities c = df := by
  have h1 : innerMerge df cities c = .error (.keyError c) := by
    rw [innerMerge, hdf, hct]
    simp only [Bool.or_self, Bool.false_eq_true, if_false]
    rw [getColumn, if_neg hc]
  exact ⟨h1, by rw [merge_with_bundesland, h1]⟩

/-- Witness for C1 at a concrete frame lacking the `city` column. -/
theorem claimC1_witness :
    innerMerge c1Df c2Cities "city" = .error (.keyError "city") ∧
      merge_with_bundesland c1Df c2Cities "city" = c1Df :=
  claimC1 c1Df c2Cities "city" rfl rfl (by decide)

/-- Counterexample to C1 as stated: with the city field absent, the caller
receives the original frame back as an ordinary, successful result — the
failure is not surfaced to the caller. -/
theorem claimC1_counterexample :
    ("city" ∉ c1Df.cols) ∧ merge_with_bundesland c1Df c2Cities "city" = c1Df := by
  constructor
  · decide
  · rfl

/-- Claim C3: whenever the fuzzy scan (started with `best_score = 0` and no
best match, as in the source) accepts a best match, the recorded best score
is exactly that candidate's similarity score and is strictly greater than
`0.5`; a scan that returns no best match leaves the facility unmatched. -/
theorem claimC3 (city : String) (avail : List (Option String)) (s : ℚ)
    (om : Option String)
    (h : bestFuzzy city avail 0 none = .ok (s, om)) :
    ∀ m, om = some m → s = score city m ∧ 1 / 2 < s := by
  intro m hm
  rcases bestFuzzy_invariant city avail 0 none s om h with ⟨h1, _, _⟩ |
    ⟨m', l1, l2, hom, _, hs, _, hh, _, _⟩
  · rw [hm] at h1
    exact absurd h1 (by simp)
  · rw [hm] at hom
    obtain rfl : m = m' := by simpa using hom
    exact ⟨hs, hh⟩

lemma score_abcd_zzz : score "abcd" "zzz" = 0 := by
  have h1 : (charSet "abcd" ∩ charSet "zzz").card = 0 := by decide
  rw [score, h1]
  norm_num

lemma score_abcd_abc : score "abcd" "abc" = 3 / 4 := by
  have h1 : (charSet "abcd" ∩ charSet "abc").card = 3 := by decide
  have h2 : max (charSet "abcd").card (charSet "abc").card = 4 := by decide
  rw [score, h1, h2]
  norm_num

lemma bestFuzzy_example :
    bestFuzzy "abcd" [some "zzz", some "abc"] 0 none = .ok (3 / 4, some "abc") := by
  rw [bestFuzzy, if_pos (by decide : 0 < max (charSet "abcd").card (charSet "zzz").card),
    if_neg (by rw [score_abcd_zzz]; norm_num)]
  rw [bestFuzzy, if_pos (by decide : 0 < max (charSet "abcd").card (charSet "abc").card),
    if_pos ⟨by rw [score_abcd_abc]; norm_num, by rw [score_abcd_abc]; norm_num⟩]
  rw [bestFuzzy, score_abcd_abc]

/-- Witness for C3 at a concrete scan. -/
theorem claimC3_witness :
    (3 / 4 : ℚ) = score "abcd" "abc" ∧ (1 / 2 : ℚ) < 3 / 4 :=
  claimC3 "abcd" [some "zzz", some "abc"] (3 / 4) (some "abc") bestFuzzy_example "abc" rfl

/-- Claim C4: the similarity score computed by the code coincides with the
spec's formula (intersection size over the larger set's size), and not with
standard union-denominator Jaccard, exhibited on `"ab"` vs `"bc"`. -/
theorem claimC4 :
    (∀ a b : String, score a b = specScore (charSet a) (charSet b)) ∧
    score "ab" "bc" = 1 / 2 ∧
    specUnionScore (charSet "ab") (charSet "bc") = 1 / 3 := by
  refine ⟨fun a b => ?_, ?_, ?_⟩
  · rw [score, specScore, Nat.cast_max]
  · have h1 : (charSet "ab" ∩ charSet "bc").card = 1 := by decide
    have h2 : max (charSet "ab").card (charSet "bc").card = 2 := by decide
    rw [score, h1, h2]
    norm_num
  · have h1 : (charSet "ab" ∩ charSet "bc").card = 1 := by decide
    have h2 : (charSet "ab" ∪ charSet "bc").card = 3 := by decide
    rw [specUnionScore, h1, h2]
    norm_num

/-- Claim C5: an empty facility frame or an empty reference frame makes the
merge return the input unchanged, with no error raised. -/
theorem claimC5 (df cities : DataFrame) (c : String)
    (h : df.rows = [] ∨ cities.rows = []) :
    innerMerge df cities c = .ok df ∧ merge_with_bundesland df cities c = df := by
  have hempty : (df.isEmpty || cities.isEmpty) = true := by
    rcases h with h | h <;> simp [DataFrame.isEmpty, h]
  have h1 : innerMerge df cities c = .ok df := by
    rw [innerMerge, hempty]
    simp
  exact ⟨h1, by rw [merge_with_bundesland, h1]⟩

/-- Witness for C5 at a concrete empty facility frame. -/
theorem claimC5_witness :
    innerMerge c5Df c2Cities "city" = .ok c5Df ∧
      merge_with_bundesland c5Df c2Cities "city" = c5Df :=
  claimC5 c5Df c2Cities "city" (Or.inl rfl)

/-- Claim C8: the fuzzy scan is deterministic with a fixed iteration order:
the accepted best match attains the maximal score over all scanned
candidates, and every candidate strictly before it in the fixed input order
scores strictly less — ties are broken in favour of the earlier candidate,
with no reliance on unordered iteration. -/
theorem claimC8 (city : String) (avail : List (Option String)) (s : ℚ) (m : String)
    (h : bestFuzzy city avail 0 none = .ok (s, some m)) :
    score city m = s ∧ (∀ a, some a ∈ avail → score city a ≤ s) ∧
    ∃ l1 l2, avail = l1 ++ some m :: l2 ∧ ∀ a, some a ∈ l1 → score city a < s := by
  rcases bestFuzzy_invariant city avail 0 none s (some m) h with ⟨h1, _, _⟩ |
    ⟨m', l1, l2, hom, hsplit, hs, _, _, hl1, hl2⟩
  · exact absurd h1 (by simp)
  · obtain rfl : m = m' := by simpa using hom
    refine ⟨hs.symm, ?_, l1, l2, hsplit, hl1⟩
    intro a ha
    rw [hsplit] at ha
    rcases List.mem_append.mp ha with ha | ha
    · exact le_of_lt (hl1 a ha)
    · rcases List.mem_cons.mp ha with heq | hmem
      · rw [show a = m from by simpa using heq]
        exact hs.symm.le
      · exact hl2 a hmem

/-- Witness for C8 at a concrete scan. -/
theorem claimC8_witness :
    score "abcd" "abc" = 3 / 4 ∧
    (∀ a, some a ∈ [some "zzz", some "abc"] → score "abcd" a ≤ 3 / 4) ∧
    ∃ l1 l2, [some "zzz", some "abc"] = l1 ++ some "abc" :: l2 ∧
      ∀ a, some a ∈ l1 → score "abcd" a < 3 / 4 :=
  claimC8 "abcd" [some "zzz", some "abc"] (3 / 4) "abc" bestFuzzy_example

/-- Claim C10: any exception raised inside the merge body (a schema
`KeyError` or the fuzzy pass's `ZeroDivisionError`) is caught by the
catch-all handler and the original input frame is returned unchanged; no
exception ever propagates to the caller. -/
theorem claimC10 (df cities : DataFrame) (c : String) (e : MergeError)
    (h : innerMerge df cities c = .error e) :
    merge_with_bundesland df cities c = df := by
  rw [merge_with_bundesland, h]

/-- Witness for C10: the fuzzy pass's division by zero (whitespace facility
city against a whitespace reference city with NaN region) is caught and the
input is returned unchanged. -/
theorem claimC10_witness :
    innerMerge zdDf zdCities "city" = .error .zeroDivisionError ∧
      merge_with_bundesland zdDf zdCities "city" = zdDf :=
  ⟨rfl, claimC10 zdDf zdCities "city" .zeroDivisionError rfl⟩

/-- Claim C2 (exact-match priority): when a facility's normalized city
equals some reference row's normalized name (and reference regions are
present, per the data model), the merged output assigns that facility the
exact-pass dict value — the region of a reference row with that normalized
name — regardless of any higher-scoring fuzzy candidate elsewhere in the
table; the fuzzy pass is never consulted for such a row. -/
theorem claimC2 (df cities : DataFrame) (c : String) (out : DataFrame)
    (i : ℕ) (row : Row) (s : String)
    (hdf : df.isEmpty = false) (hct : cities.isEmpty = false)
    (hok : innerMerge df cities c = .ok out)
    (hrow : df.rows[i]? = some row) (hcity : getCell row c = some s)
    (hB : ∀ r ∈ cities.rows, getCell r "Bundesland" ≠ none)
    (hex : ∃ r ∈ cities.rows, ∃ t, getCell r "Stadt" = some t ∧
      normalize t = normalize s) :
    ∃ orow, out.rows[i]? = some orow ∧
      getCell orow "bundesland" = mapGet (mappingOf cities) (normalize s) ∧
      ∃ r ∈ cities.rows, ∃ t b, getCell r "Stadt" = some t ∧
        normalize t = normalize s ∧ getCell r "Bundesland" = some b ∧
        getCell orow "bundesland" = some b := by
  obtain ⟨orow, v, ho, hbl, hrr⟩ := merge_row_value hdf hct hok hrow
  rw [hcity] at hrr
  have hrr' : resolveRow (mappingOf cities) (dedupFirst (stadtCleanOf cities))
      (some (normalize s)) (mapGet (mappingOf cities) (normalize s)) = .ok v := hrr
  obtain ⟨r, hr, t, ht, hk, hd⟩ := dictLookup_of_exists hex
  obtain ⟨b, hb⟩ : ∃ b, getCell r "Bundesland" = some b := by
    cases hbb : getCell r "Bundesland" with
    | none => exact absurd hbb (hB r hr)
    | some b => exact ⟨b, rfl⟩
  have hmg : mapGet (mappingOf cities) (normalize s) = some b := by
    rw [mapGet, mappingOf_eq_map, hd, hb]
    rfl
  rw [hmg, resolveRow_exact] at hrr'
  simp only [Except.ok.injEq] at hrr'
  refine ⟨orow, ho, ?_, r, hr, t, b, ht, hk, hb, ?_⟩
  · rw [hbl, ← hrr', hmg]
  · rw [hbl, ← hrr']

/-- Witness for C2: the facility `"Berlin "` is matched exactly to the
reference `"Berlin"` (region `BE`), even though the fuzzy candidate
`"berlinx"` scores higher than the threshold. -/
theorem claimC2_witness :
    ∃ orow, c2Out.rows[0]? = some orow ∧
      getCell orow "bundesland" = mapGet (mappingOf c2Cities) (normalize "Berlin ") ∧
      ∃ r ∈ c2Cities.rows, ∃ t b, getCell r "Stadt" = some t ∧
        normalize t = normalize "Berlin " ∧ getCell r "Bundesland" = some b ∧
        getCell orow "bundesland" = some b :=
  claimC2 c2Df c2Cities "city" c2Out 0 [("city", some "Berlin ")] "Berlin "
    rfl rfl rfl (by decide) rfl (by decide)
    ⟨[("Stadt", some "Berlin"), ("Bundesland", some "BE")], by decide, "Berlin", rfl, rfl⟩

/-- Claim C6 (last-write-wins): when several reference rows normalize to the
same key, the dict used for resolution carries the region of the last such
row in input order, and a facility exactly matching that key is assigned
that later row's region. -/
theorem claimC6 (df cities : DataFrame) (c : String) (out : DataFrame)
    (i : ℕ) (row : Row) (s : String) (l1 l2 : List Row) (r2 : Row) (t2 b2 : String)
    (hdf : df.isEmpty = false) (hct : cities.isEmpty = false)
    (hok : innerMerge df cities c = .ok out)
    (hsplit : cities.rows = l1 ++ r2 :: l2)
    (ht2 : getCell r2 "Stadt" = some t2) (hk2 : normalize t2 = normalize s)
    (hb2 : getCell r2 "Bundesland" = some b2)
    (hlast : ∀ r ∈ l2, ∀ t, getCell r "Stadt" = some t → normalize t ≠ normalize s)
    (_hearlier : ∃ r ∈ l1, ∃ t, getCell r "Stadt" = some t ∧ normalize t = normalize s)
    (hrow : df.rows[i]? = some row) (hcity : getCell row c = some s) :
    mapGet (mappingOf cities) (normalize s) = some b2 ∧
      ∃ orow, out.rows[i]? = some orow ∧ getCell orow "bundesland" = some b2 := by
  have hd : dictLookup (cities.rows.map mappingRow) (some (normalize s))
      = some (getCell r2 "Bundesland") := by
    rw [hsplit]
    exact dictLookup_last_write ht2 hk2 hlast
  have hmg : mapGet (mappingOf cities) (normalize s) = some b2 := by
    rw [mapGet, mappingOf_eq_map, hd, hb2]
    rfl
  obtain ⟨orow, v, ho, hbl, hrr⟩ := merge_row_value hdf hct hok hrow
  rw [hcity] at hrr
  have hrr' : resolveRow (mappingOf cities) (dedupFirst (stadtCleanOf cities))
      (some (normalize s)) (mapGet (mappingOf cities) (normalize s)) = .ok v := hrr
  rw [hmg, resolveRow_exact] at hrr'
  simp only [Except.ok.injEq] at hrr'
  exact ⟨hmg, orow, ho, by rw [hbl, ← hrr']⟩

/-- Witness for C6: reference rows `"Berlin" -> "Berlin"` then
`"berlin " -> "BerlinAlt"` normalize to the same key; the facility
`"Berlin"` gets `"BerlinAlt"`. -/
theorem claimC6_witness :
    mapGet (mappingOf c6Cities) (normalize "Berlin") = some "BerlinAlt" ∧
      ∃ orow, c6Out.rows[0]? = some orow ∧
        getCell orow "bundesland" = some "BerlinAlt" :=
  claimC6 c6Df c6Cities "city" c6Out 0 [("city", some "Berlin")] "Berlin"
    [[("Stadt", some "Berlin"), ("Bundesland", some "Berlin")]] []
    [("Stadt", some "berlin "), ("Bundesland", some "BerlinAlt")] "berlin " "BerlinAlt"
    rfl rfl rfl rfl rfl rfl rfl (by simp)
    ⟨[("Stadt", some "Berlin"), ("Bundesland", some "Berlin")], by decide, "Berlin", rfl, rfl⟩
    rfl rfl

/-- Claim C7 (amended): a facility with a NaN city value is left unmatched
without being scored by the fuzzy pass, provided no reference row's city
name is itself NaN (otherwise `Series.map`'s NaN-key matching assigns that
row's region); and a facility whose city value normalizes to the empty
string (given that no reference name normalizes to the empty string) is
likewise left unmatched; in both cases the merge succeeds for that row
without raising. -/
theorem claimC7 (df cities : DataFrame) (c : String) (out : DataFrame)
    (i : ℕ) (row : Row)
    (hdf : df.isEmpty = false) (hct : cities.isEmpty = false)
    (hok : innerMerge df cities c = .ok out) (hrow : df.rows[i]? = some row) :
    ((∀ r ∈ cities.rows, getCell r "Stadt" ≠ none) → getCell row c = none →
      ∃ orow, out.rows[i]? = some orow ∧ getCell orow "bundesland" = none) ∧
    (∀ s, getCell row c = some s → normalize s = "" →
      (∀ r ∈ cities.rows, ∀ t, getCell r "Stadt" = some t → normalize t ≠ "") →
      ∃ orow, out.rows[i]? = some orow ∧ getCell orow "bundesland" = none) := by
  obtain ⟨orow, v, ho, hbl, hrr⟩ := merge_row_value hdf hct hok hrow
  constructor
  · intro hSnn hnone
    rw [hnone] at hrr
    have hdl : dictLookup (mappingOf cities) none = none := by
      apply dictLookup_eq_none
      intro p hp
      rw [mappingOf_eq_map] at hp
      obtain ⟨q, hq, rfl⟩ := List.mem_map.mp hp
      simp only [mappingRow]
      cases hsq : getCell q "Stadt" with
      | none => exact absurd hsq (hSnn q hq)
      | some t' => simp
    have hmk : mapGetKey (mappingOf cities) none = none := by
      rw [mapGetKey, hdl]
      rfl
    have hrr' : resolveRow (mappingOf cities) (dedupFirst (stadtCleanOf cities))
        none (mapGetKey (mappingOf cities) none) = .ok v := hrr
    rw [hmk, resolveRow_none_city] at hrr'
    simp only [Except.ok.injEq] at hrr'
    exact ⟨orow, ho, by rw [hbl, ← hrr']⟩
  · intro s hs hnorm href
    rw [hs] at hrr
    have hmg : mapGet (mappingOf cities) "" = none := by
      rw [mapGet, mappingOf_eq_map, dictLookup_eq_none ?_]
      · rfl
      · intro p hp hpk
        obtain ⟨q, hq, rfl⟩ := List.mem_map.mp hp
        simp only [mappingRow] at hpk
        cases hsq : getCell q "Stadt" with
        | none => rw [hsq] at hpk; simp at hpk
        | some t' =>
          rw [hsq] at hpk
          simp only [Option.map_some', Option.some.injEq] at hpk
          exact href q hq t' hsq hpk
    have hrr' : resolveRow (mappingOf cities) (dedupFirst (stadtCleanOf cities))
        (some (normalize s)) (mapGet (mappingOf cities) (normalize s)) = .ok v := hrr
    rw [hnorm, hmg] at hrr'
    have havail : ∀ a, some a ∈ dedupFirst (stadtCleanOf cities) → a ≠ "" := by
      intro a ha
      have ha' := mem_dedupFirst ha
      rw [stadtCleanOf] at ha'
      obtain ⟨q, hq, hmap⟩ := List.mem_map.mp ha'
      cases hsq : getCell q "Stadt" with
      | none => rw [hsq] at hmap; simp at hmap
      | some t' =>
        rw [hsq] at hmap
        simp only [Option.map_some', Option.some.injEq] at hmap
        rw [← hmap]
        exact href q hq t' hsq
    rw [resolveRow_fuzzy_none (bestFuzzy_empty_city havail)] at hrr'
    simp only [Except.ok.injEq] at hrr'
    exact ⟨orow, ho, by rw [hbl, ← hrr']⟩

/-- A facility whose city is whitespace only. -/
def c7bDf : DataFrame := ⟨["city"], [[("city", some "   ")]]⟩

/-- The merged output for `c7bDf`/`c7Cities`: the empty-normalizing city
stays unmatched (the only reference name is NaN, skipped by the fuzzy
pass's `pd.notna` guard and not equal to the string key `""`). -/
def c7bOut : DataFrame := ⟨["city", "bundesland"],
  [[("city", some "   "), ("bundesland", none)]]⟩

/-- A reference row whose city is whitespace only (normalizes to `""`)
with a present region. -/
def c7bCities : DataFrame := ⟨["Stadt", "Bundesland"],
  [[("Stadt", some " "), ("Bundesland", some "X")]]⟩

/-- Counterexample to C7 as stated, in both halves.  A facility with a NaN
city value is NOT left unmatched when some reference row's city name is
also NaN: `Series.map` (default `na_action`) looks the NaN city up in the
dict, whose NaN key matches it (pandas GH 17648), so that row's region is
assigned.  And a facility with a whitespace-only (empty-normalizing) city
value is NOT left unmatched when some reference name also normalizes to the
empty string — the exact pass matches the two empty keys and assigns that
reference's region. -/
theorem claimC7_counterexample :
    merge_with_bundesland c7aDf c7Cities "city"
      = ⟨["city", "bundesland"], [[("city", none), ("bundesland", some "X")]]⟩ ∧
    merge_with_bundesland c7bDf c7bCities "city"
      = ⟨["city", "bundesland"], [[("city", some "   "), ("bundesland", some "X")]]⟩ :=
  ⟨rfl, rfl⟩

/-- Witness for C7: a NaN-city facility against an all-string reference
table, and a whitespace-city facility against a table with no
empty-normalizing names, both come out unmatched. -/
theorem claimC7_witness :
    (∃ orow, c7aOut.rows[0]? = some orow ∧ getCell orow "bundesland" = none) ∧
    (∃ orow, c7bOut.rows[0]? = some orow ∧ getCell orow "bundesland" = none) := by
  constructor
  · exact (claimC7 c7aDf c2Cities "city" c7aOut 0 [("city", none)]
      rfl rfl rfl (by decide)).1 (by decide) rfl
  · exact (claimC7 c7bDf c7Cities "city" c7bOut 0 [("city", some "   ")]
      rfl rfl rfl (by decide)).2 "   " rfl rfl (by decide)

/-- Claim C9 (frame shape): for a well-formed input frame (each row carries
exactly the declared columns) whose columns do not already include
`bundesland` or the temporary `_clean` column, a successful merge returns a
new frame whose columns are the original columns plus `bundesland` at the
end, with the same number of rows, and each output row is the original row
with all original cells unchanged plus the single `bundesland` cell; the
temporary clean column is gone.  The input frame itself is untouched (the
source operates on `df.copy()`; the model is pure). -/
theorem claimC9 (df cities : DataFrame) (c : String) (out : DataFrame)
    (hwf : ∀ r ∈ df.rows, r.map Prod.fst = df.cols)
    (hb : "bundesland" ∉ df.cols) (hcl : (c ++ "_clean") ∉ df.cols)
    (hdf : df.isEmpty = false) (hct : cities.isEmpty = false)
    (hok : innerMerge df cities c = .ok out) :
    merge_with_bundesland df cities c = out ∧
    out.cols = df.cols ++ ["bundesland"] ∧
    out.rows.length = df.rows.length ∧
    ∀ (i : ℕ) (row : Row), df.rows[i]? = some row →
      ∃ v : Option String, out.rows[i]? = some (row ++ [("bundesland", v)]) := by
  obtain ⟨hc, hS, hB, finalVals, hres, hout⟩ := innerMerge_ok_destruct hdf hct hok
  have hlen1 : (cleanValsOf df c).length = df.rows.length := by
    rw [cleanValsOf, List.length_map]
  have hlen2 : finalVals.length = df.rows.length := by
    rw [resolveAll_length hres, List.length_zip, List.length_map, min_self, hlen1]
  refine ⟨by rw [merge_with_bundesland, hok], ?_, ?_, ?_⟩
  · rw [hout]
    simp only [dropColumn, setColumn]
    rw [if_neg hcl]
    have hbl2 : "bundesland" ∉ df.cols ++ [c ++ "_clean"] := by
      intro hmem
      rcases List.mem_append.mp hmem with hmem | hmem
      · exact hb hmem
      · have hmem' : ("bundesland" : String) = c ++ "_clean" := by simpa using hmem
        exact (append_clean_ne c) hmem'.symm
    rw [if_neg hbl2, List.append_assoc, List.erase_append_right _ hcl,
      List.singleton_append, List.erase_cons_head]
  · rw [hout]
    simp only [dropColumn, setColumn, List.length_map, List.length_zip]
    rw [hlen1, hlen2, min_self, min_self]
  · intro i row hrow
    have hkeys : row.map Prod.fst = df.cols := hwf row (mem_of_getElem? hrow)
    have hkc : hasKey row (c ++ "_clean") = false :=
      hasKey_false_of_not_mem (by rw [hkeys]; exact hcl)
    have hclean : (cleanValsOf df c)[i]? = some (Option.map normalize (getCell row c)) := by
      simp [cleanValsOf, List.getElem?_map, hrow]
    have hexact : ((cleanValsOf df c).map
        (fun oc => mapGetKey (mappingOf cities) oc))[i]?
        = some (mapGetKey (mappingOf cities)
          (Option.map normalize (getCell row c))) := by
      simp [List.getElem?_map, hclean]
    obtain ⟨v, hv, _⟩ := resolveAll_get hres (getElem?_zip_of hclean hexact)
    have h1 := setColumn_rows_get (c := c ++ "_clean") hrow hclean
    have h2 := setColumn_rows_get (c := "bundesland") h1 hv
    have h3 := dropColumn_rows_get (c := c ++ "_clean") h2
    rw [← hout] at h3
    have e1 : setCell row (c ++ "_clean") (Option.map normalize (getCell row c))
        = row ++ [(c ++ "_clean", Option.map normalize (getCell row c))] :=
      setCell_append_of_not_has hkc
    have hrowbl : hasKey row "bundesland" = false :=
      hasKey_false_of_not_mem (by rw [hkeys]; exact hb)
    have hkb : hasKey (row ++ [(c ++ "_clean", Option.map normalize (getCell row c))])
        "bundesland" = false := by
      rw [hasKey, List.any_append]
      rw [hasKey] at hrowbl
      rw [hrowbl]
      simp [append_clean_ne c]
    have e2 : setCell (row ++ [(c ++ "_clean", Option.map normalize (getCell row c))])
        "bundesland" v
        = row ++ [(c ++ "_clean", Option.map normalize (getCell row c))]
          ++ [("bundesland", v)] :=
      setCell_append_of_not_has hkb
    have f1 : row.filter (fun p => !(p.1 == c ++ "_clean")) = row := by
      apply List.filter_eq_self.mpr
      intro q hq
      have hqc : q.1 ∈ df.cols := by
        rw [← hkeys]
        exact List.mem_map_of_mem _ hq
      have hne : q.1 ≠ c ++ "_clean" := fun hh => hcl (hh ▸ hqc)
      simp [hne]
    have f2 : ([(c ++ "_clean", Option.map normalize (getCell row c))]
        ++ [("bundesland", v)]).filter (fun p => !(p.1 == c ++ "_clean"))
        = [("bundesland", v)] := by
      have hne : ("bundesland" : String) ≠ c ++ "_clean" := Ne.symm (append_clean_ne c)
      simp [List.filter_cons, hne]
    refine ⟨v, ?_⟩
    rw [h3, e1, e2, List.append_assoc, List.filter_append, f1, f2]

/-- Witness for C9 at the concrete exact-match example. -/
theorem claimC9_witness :
    merge_with_bundesland c2Df c2Cities "city" = c2Out ∧
    c2Out.cols = c2Df.cols ++ ["bundesland"] ∧
    c2Out.rows.length = c2Df.rows.length ∧
    ∀ (i : ℕ) (row : Row), c2Df.rows[i]? = some row →
      ∃ v : Option String, c2Out.rows[i]? = some (row ++ [("bundesland", v)]) :=
  claimC9 c2Df c2Cities "city" c2Out (by decide) (by decide) (by decide) rfl rfl rfl

end CampPark
